import Mathlib

/-!
Verification of the `hmodb` schedule-resolution engine (`src/schedule.ts`).

The engine is embedded shallowly:

* A JavaScript `Date` is its epoch-milliseconds value, modelled as `Int`.
* The host runtime's local timezone is modelled as UTC (the local-time
  `Date` accessors used by `addDuration` coincide with the UTC ones).
* A wall-clock `"HH:mm"` time string is modelled as its minutes since
  midnight (`Nat`).
* Integer division `/` below is Lean's Euclidean `Int` division; every
  divisor in this development is positive, where it coincides with the
  floor division performed by the modelled JS date arithmetic.
* The ambient environment (the `Intl` timezone database and the clock read
  by `new Date()`) is passed explicitly as a `JsEnv` value: `tzLocal z t`
  returns the epoch-milliseconds encoding of the wall-clock date/time that
  instant `t` reads in zone `z`, or `none` when the zone is unknown
  (`Intl.DateTimeFormat` throws, which the source catches).
-/

namespace Hmodb

/-- Milliseconds in one UTC day. -/
def dayMs : Int := 86400000

/-- Milliseconds in one week (`weekMs` in the source). -/
def weekMs : Int := 604800000

/-- Truncate an instant to the UTC midnight of its calendar day.  Models
`new Date(Date.UTC(...utcYMD(d)))` from the source. -/
def utcMidnight (t : Int) : Int := (t / dayMs) * dayMs

/-- UTC weekday of an instant, 0 = Sunday .. 6 = Saturday.  Models
`Date.prototype.getUTCDay` (1970-01-01 was a Thursday, weekday 4). -/
def jsUTCDay (t : Int) : Nat := ((t / dayMs + 4) % 7).toNat

/-- Civil (proleptic Gregorian) date of a day number counted from
1970-01-01: `(year, month 1..12, day 1..31)`.  Standard days-to-civil
conversion, as performed internally by the JS `Date` UTC accessors. -/
def civilFromDays (z0 : Int) : Int × Int × Int :=
  let z := z0 + 719468
  let era := z / 146097
  let doe := z - era * 146097
  let yoe := (doe - doe / 1460 + doe / 36524 - doe / 146096) / 365
  let y := yoe + era * 400
  let doy := doe - (365 * yoe + yoe / 4 - yoe / 100)
  let mp := (5 * doy + 2) / 153
  let d := doy - (153 * mp + 2) / 5 + 1
  let m := mp + (if mp < 10 then 3 else -9)
  (y + (if m ≤ 2 then 1 else 0), m, d)

/-- Day number (from 1970-01-01) of a civil date with month `1..12` and a
valid day of month.  Inverse of `civilFromDays`. -/
def daysFromCivil (y0 : Int) (m : Int) (d : Int) : Int :=
  let y := if m ≤ 2 then y0 - 1 else y0
  let era := y / 400
  let yoe := y - era * 400
  let mp := if 2 < m then m - 3 else m + 9
  let doy := (153 * mp + 2) / 5 + d - 1
  let doe := yoe * 365 + yoe / 4 - yoe / 100 + doy
  era * 146097 + doe - 719468

/-- The ECMAScript `MakeDay(year, month, date)` operation: `month` is
0-based and may be out of range (the year is adjusted), `date` may be out of
range (overflow rolls into the following months). -/
def jsMakeDay (y : Int) (mon0 : Int) (day : Int) : Int :=
  let ym := y + mon0 / 12
  let mn := mon0 - 12 * (mon0 / 12)
  daysFromCivil ym (mn + 1) 1 + day - 1

/-- Left-pad the decimal rendering of a natural number with zeros. -/
def padNat (width n : Nat) : String :=
  let s := toString n
  if s.length < width then String.mk (List.replicate (width - s.length) '0') ++ s else s

/-- Decimal rendering of an integer, zero-padded to `width` digits. -/
def padInt (width : Nat) (i : Int) : String :=
  if i < 0 then "-" ++ padNat width (-i).toNat else padNat width i.toNat

/-- The `toYMD` helper of the source: the `"YYYY-MM-DD"` UTC date portion of
`Date.prototype.toISOString`. -/
def toYMD (t : Int) : String :=
  let c := civilFromDays (t / dayMs)
  padInt 4 c.1 ++ "-" ++ padInt 2 c.2.1 ++ "-" ++ padInt 2 c.2.2

/-- JS `Math.round (a / b)` for integers `a` and positive `b` (rounds half
towards positive infinity): `⌊a / b + 1 / 2⌋`. -/
def jsRoundDiv (a b : Int) : Int := (2 * a + b) / (2 * b)

/-- The JS test `a % b === 0`.  When `b = 0` the remainder is `NaN`, which
compares unequal to `0`; otherwise the test holds exactly when `b` divides
`a` (the sign convention of the JS remainder does not affect a zero test). -/
def jsModEqZero (a : Int) (b : Nat) : Bool :=
  if b = 0 then false else a % (b : Int) == 0

-- ─── ISO 8601 duration parser ─────────────────────────────────────────

/-- Result type of `parseDuration` (`interface Duration` in the source);
`none` models an `undefined` field. -/
structure Duration where
  years : Option Nat := none
  months : Option Nat := none
  weeks : Option Nat := none
  days : Option Nat := none
deriving DecidableEq

/-- Decimal value of a digit string (`parseInt` on a `\d+` capture). -/
def digitsVal (ds : List Char) : Nat :=
  ds.foldl (fun a c => a * 10 + (c.toNat - 48)) 0

/-- One optional regex group `(?:(\d+)X)?`: consume a maximal digit run
followed by the letter `letter`, if present at the front of `cs`. -/
def durComponent (letter : Char) (cs : List Char) : Option Nat × List Char :=
  let ds := cs.takeWhile (·.isDigit)
  match cs.drop ds.length with
  | c :: rest => if ds ≠ [] ∧ c = letter then (some (digitsVal ds), rest) else (none, cs)
  | [] => (none, cs)

/-- The source's `parseDuration`: match
`/^P(?:(\d+)Y)?(?:(\d+)M)?(?:(\d+)W)?(?:(\d+)D)?/` and collect the captured
groups; a string not starting with `'P'` does not match and yields the
default weekly duration. -/
def parseDuration (iso : String) : Duration :=
  match iso.data with
  | 'P' :: r0 =>
    let p1 := durComponent 'Y' r0
    let p2 := durComponent 'M' p1.2
    let p3 := durComponent 'W' p2.2
    let p4 := durComponent 'D' p3.2
    { years := p1.1, months := p2.1, weeks := p3.1, days := p4.1 }
  | _ => { weeks := some 1 }

/-- JS truthiness of an optional number field: `undefined` and `0` are
falsy. -/
def truthy (o : Option Nat) : Bool := o.getD 0 != 0

/-- `d.setFullYear(d.getFullYear() + n)` on instant `t` (runtime timezone
modelled as UTC). -/
def jsAddYears (t : Int) (n : Nat) : Int :=
  let day := t / dayMs
  let tod := t - day * dayMs
  let c := civilFromDays day
  jsMakeDay (c.1 + n) (c.2.1 - 1) c.2.2 * dayMs + tod

/-- `d.setMonth(d.getMonth() + n)` on instant `t`. -/
def jsAddMonths (t : Int) (n : Nat) : Int :=
  let day := t / dayMs
  let tod := t - day * dayMs
  let c := civilFromDays day
  jsMakeDay c.1 (c.2.1 - 1 + n) c.2.2 * dayMs + tod

/-- `d.setDate(d.getDate() + n)` on instant `t`. -/
def jsAddDays (t : Int) (n : Nat) : Int :=
  let day := t / dayMs
  let tod := t - day * dayMs
  let c := civilFromDays day
  jsMakeDay c.1 (c.2.1 - 1) (c.2.2 + n) * dayMs + tod

/-- The source's `addDuration`: advance a date by one duration unit, each
component applied only when truthy. -/
def addDuration (t : Int) (dur : Duration) : Int :=
  let t1 := if truthy dur.years then jsAddYears t (dur.years.getD 0) else t
  let t2 := if truthy dur.months then jsAddMonths t1 (dur.months.getD 0) else t1
  let t3 := if truthy dur.weeks then jsAddDays t2 (dur.weeks.getD 0 * 7) else t2
  if truthy dur.days then jsAddDays t3 (dur.days.getD 0) else t3

-- ─── Data model (`src/types.ts`) ──────────────────────────────────────

/-- Friendly status strings (`EventStatusFriendly` in `types.ts`). -/
inductive EventStatusFriendly where
  | scheduled | cancelled | postponed | rescheduled | movedOnline
deriving DecidableEq

/-- `ParsedLocation` (the `address` sub-object is irrelevant to the engine
and carried opaquely). -/
structure ParsedLocation where
  name : Option String := none
  osmId : Option String := none
  osmUrl : Option String := none
deriving DecidableEq

/-- `ParsedPerformer`. -/
structure ParsedPerformer where
  name : Option String := none
  jobTitle : Option String := none
deriving DecidableEq

/-- `ParsedSchedule`; dates are epoch milliseconds, `startTime`/`endTime`
are minutes since midnight, `exceptDates` are `"YYYY-MM-DD"` strings. -/
structure ParsedSchedule where
  byDay : List Nat := []
  startTime : Option Nat := none
  endTime : Option Nat := none
  repeatFrequency : String := "P1W"
  startDate : Option Int := none
  endDate : Option Int := none
  exceptDates : List String := []
  timezone : Option String := none
deriving DecidableEq

/-- `ParsedEvent`. -/
structure ParsedEvent where
  name : String := "Mass"
  description : Option String := none
  serviceType : Option String := none
  status : EventStatusFriendly := .scheduled
  location : Option ParsedLocation := none
  languages : List String := []
  performers : List ParsedPerformer := []
  startDate : Option Int := none
  endDate : Option Int := none
  previousStartDate : Option Int := none
  schedule : Option ParsedSchedule := none
deriving DecidableEq

/-- `MassInstance` / `EventInstance`: one resolved concrete occurrence. -/
structure MassInstance where
  startDate : Int
  endDate : Option Int := none
  name : String
  description : Option String := none
  serviceType : Option String := none
  status : EventStatusFriendly
  location : Option ParsedLocation := none
  languages : List String := []
  performers : List ParsedPerformer := []
  previousStartDate : Option Int := none
deriving DecidableEq

/-- A TS field of type `T | T[] | undefined`. -/
inductive OneOrMany (α : Type) where
  | none
  | one (a : α)
  | many (l : List α)
deriving DecidableEq

/-- The source's `toArr` helper. -/
def toArr {α : Type} : OneOrMany α → List α
  | .none => []
  | .one a => [a]
  | .many l => l

/-- `EventFilter` from `types.ts`.  `none` on the booleans models an
`undefined` field. -/
structure EventFilter where
  serviceType : OneOrMany String := .none
  language : OneOrMany String := .none
  includeUntyped : Option Bool := none
  includeLanguageUnknown : Option Bool := none
deriving DecidableEq

/-- `ExpandOptions` from `schedule.ts`. -/
structure ExpandOptions where
  expandFrom : Option Int := none
  expandTo : Option Int := none
  limit : Option Nat := none
deriving DecidableEq

/-- The ambient JS environment: the `Intl` timezone database and the clock
behind `new Date()`.  `tzLocal z t` is the epoch-milliseconds encoding of
the wall-clock date/time that instant `t` reads in IANA zone `z` (the value
the source reconstructs from `Intl.DateTimeFormat(...).formatToParts`);
`none` models an unknown zone, for which `Intl.DateTimeFormat` throws. -/
structure JsEnv where
  tzLocal : String → Int → Option Int
  clock : Int := 0

-- ─── Local-time resolution (`applyTimeToDate`) ────────────────────────

/-- The source's `applyTimeToDate`: given an instant, a wall-clock time (in
minutes) and an optional timezone, return the UTC instant that represents
that local time on the instant's UTC calendar day.  The probe instant reads
the wall-clock time as UTC; with a timezone the probe is shifted back by
the zone's offset at the probe; an unknown zone falls back to UTC. -/
def applyTimeToDate (env : JsEnv) (date : Int) (time : Nat) (timezone : Option String) : Int :=
  let probe := utcMidnight date + time * 60000
  match timezone with
  | some z =>
    match env.tzLocal z probe with
    | some localMs => probe - (localMs - probe)
    | none => probe
  | none => probe

-- ─── Schedule expansion (`expandSchedule`) ────────────────────────────

/-- `const now = opts.from ?? new Date()`. -/
def effectiveNow (env : JsEnv) (opts : ExpandOptions) : Int :=
  opts.expandFrom.getD env.clock

/-- `const until = opts.to ?? new Date(now.getTime() + 30 * 24 * 60 * 60 * 1000)`. -/
def effectiveUntil (env : JsEnv) (opts : ExpandOptions) : Int :=
  opts.expandTo.getD (effectiveNow env opts + 30 * 24 * 60 * 60 * 1000)

/-- The effective lower bound `boundsStart` of `expandSchedule`. -/
def boundsStartOf (env : JsEnv) (schedule : ParsedSchedule) (opts : ExpandOptions) : Int :=
  let now := effectiveNow env opts
  match schedule.startDate with
  | some sd => if sd > now then sd else now
  | none => now

/-- The effective upper bound `boundsEnd` of `expandSchedule`. -/
def boundsEndOf (env : JsEnv) (schedule : ParsedSchedule) (opts : ExpandOptions) : Int :=
  let untl := effectiveUntil env opts
  match schedule.endDate with
  | some ed => if ed < untl then ed else untl
  | none => untl

/-- The anchor used for the multi-week cycle check: UTC midnight of
`schedule.startDate ?? boundsStart`. -/
def anchorOf (env : JsEnv) (schedule : ParsedSchedule) (opts : ExpandOptions) : Int :=
  utcMidnight ((schedule.startDate).getD (boundsStartOf env schedule opts))

/-- Build the instance pushed for a qualifying cursor day: apply
`startTime` in the schedule's timezone, or keep the cursor instant. -/
def mkStartInstance (env : JsEnv) (schedule : ParsedSchedule) (cursor : Int) : Int :=
  match schedule.startTime with
  | some time => applyTimeToDate env cursor time schedule.timezone
  | none => cursor

/-- Day-of-week mode of `expandSchedule`: the while-loop visits the UTC
midnights `m0, m0 + 1 day, …` while `cursor ≤ boundsEnd`, pushing an
instance for each day whose weekday is in `byDay`, whose rounded week
offset from the anchor is a multiple of `repeatWeeks` and whose date is not
excepted, until `limit` instances are collected.  Equivalently: the first
`limit` qualifying instants among the `numDays` visited days. -/
def expandByDay (env : JsEnv) (schedule : ParsedSchedule) (boundsEnd : Int)
    (anchor : Int) (repeatWeeks : Nat) (limit : Nat) (m0 : Int) : List Int :=
  let numDays := ((boundsEnd - m0).toNat / 86400000) + 1
  (((List.range numDays).filterMap fun (k : Nat) =>
    let cursor := m0 + (k : Int) * dayMs
    if schedule.byDay.contains (jsUTCDay cursor) then
      if jsModEqZero (jsRoundDiv (cursor - anchor) weekMs) repeatWeeks then
        if schedule.exceptDates.contains (toYMD cursor) then none
        else some (mkStartInstance env schedule cursor)
      else none
    else none)).take limit

/-- Fixed-interval mode of `expandSchedule`: starting at `cursor`, emit an
instance per step (unless the cursor's date is excepted) and advance the
cursor by one duration, while `cursor ≤ boundsEnd` and fewer than `limit`
instances have been collected.  The `cursor < next` guard records that JS
`Date` arithmetic with a truthy (positive) duration component always
advances the cursor, which is what terminates the source's loop. -/
def expandFixed (env : JsEnv) (schedule : ParsedSchedule) (boundsEnd : Int)
    (dur : Duration) (limit : Nat) (cursor : Int) (count : Nat) : List Int :=
  if hg : cursor ≤ boundsEnd ∧ count < limit then
    if hn : cursor < addDuration cursor dur then
      if schedule.exceptDates.contains (toYMD cursor) then
        expandFixed env schedule boundsEnd dur limit (addDuration cursor dur) count
      else
        mkStartInstance env schedule cursor ::
          expandFixed env schedule boundsEnd dur limit (addDuration cursor dur) (count + 1)
    else
      if schedule.exceptDates.contains (toYMD cursor) then []
      else [mkStartInstance env schedule cursor]
  else []
termination_by (boundsEnd + 1 - cursor).toNat
decreasing_by all_goals omega

/-- The source's `expandSchedule`: expand a recurring `ParsedSchedule` into
concrete instants within the window. -/
def expandSchedule (env : JsEnv) (schedule : ParsedSchedule) (opts : ExpandOptions) : List Int :=
  let limit := opts.limit.getD 500
  let dur := parseDuration schedule.repeatFrequency
  let boundsStart := boundsStartOf env schedule opts
  let boundsEnd := boundsEndOf env schedule opts
  if boundsStart > boundsEnd then []
  else if schedule.byDay.length > 0 then
    expandByDay env schedule boundsEnd (anchorOf env schedule opts)
      (dur.weeks.getD 1) limit (utcMidnight boundsStart)
  else if truthy dur.days || truthy dur.weeks || truthy dur.months || truthy dur.years then
    expandFixed env schedule boundsEnd dur limit boundsStart 0
  else []

-- ─── Event filter (`matchesFilter`) ───────────────────────────────────

/-- JS truthiness of an optional string (`!!event.serviceType`): both
`undefined` and the empty string are falsy. -/
def truthyStr (o : Option String) : Bool :=
  match o with
  | some s => s ≠ ""
  | none => false

/-- The source's `matchesFilter`: serviceType predicate (honouring
`includeUntyped`) AND language predicate.  The language predicate is
strict: with an active language filter, an event with no language tags is
always rejected (`includeLanguageUnknown` is never consulted). -/
def matchesFilter (event : ParsedEvent) (filter : EventFilter) : Bool :=
  let serviceTypes := toArr filter.serviceType
  let languages := toArr filter.language
  let svcOk :=
    if serviceTypes.length > 0 then
      if !truthyStr event.serviceType then filter.includeUntyped == some true
      else serviceTypes.contains (event.serviceType.getD "")
    else true
  let langOk :=
    if languages.length > 0 then
      !(event.languages.length == 0 ||
        !(event.languages.any fun l => languages.contains l))
    else true
  svcOk && langOk

-- ─── Core resolver (`resolveEvents`) ──────────────────────────────────

/-- The instance pushed for one expanded occurrence of a recurring event
(note `previousStartDate` is not copied in this branch of the source). -/
def scheduleInstance (env : JsEnv) (event : ParsedEvent) (sch : ParsedSchedule)
    (startDate : Int) : MassInstance :=
  { startDate := startDate
    endDate := sch.endTime.map fun et => applyTimeToDate env startDate et sch.timezone
    name := event.name
    description := event.description
    serviceType := event.serviceType
    status := event.status
    location := event.location
    languages := event.languages
    performers := event.performers
    previousStartDate := none }

/-- The instance pushed for a one-off event falling inside the window. -/
def oneOffInstance (event : ParsedEvent) (startDate : Int) : MassInstance :=
  { startDate := startDate
    endDate := event.endDate
    name := event.name
    description := event.description
    serviceType := event.serviceType
    status := event.status
    location := event.location
    languages := event.languages
    performers := event.performers
    previousStartDate := event.previousStartDate }

/-- The instances contributed by a single event definition in the
collection loop of `resolveEvents`. -/
def eventInstances (env : JsEnv) (event : ParsedEvent) (winFrom winTo : Int)
    (opts : ExpandOptions) (filter : EventFilter) : List MassInstance :=
  if !matchesFilter event filter then []
  else
    match event.schedule with
    | some sch =>
      if (match sch.endDate with | some ed => decide (ed < winFrom) | none => false) then []
      else
        (expandSchedule env sch
            { opts with expandFrom := some winFrom, expandTo := some winTo }).map
          (scheduleInstance env event sch)
    | none =>
      match event.startDate with
      | some sd =>
        if winFrom ≤ sd ∧ sd ≤ winTo then [oneOffInstance event sd] else []
      | none => []

/-- The full `instances` list collected by the first loop of
`resolveEvents`, in push order. -/
def emitInstances (env : JsEnv) (events : List ParsedEvent) (winFrom winTo : Int)
    (opts : ExpandOptions) (filter : EventFilter) : List MassInstance :=
  events.foldl (fun acc event => acc ++ eventInstances env event winFrom winTo opts filter) []

/-- The override-matching key comparison of the source:
`toYMD(o.startDate) === toYMD(s.startDate) && o.location?.osmId === s.location?.osmId`. -/
def osmKey (i : MassInstance) : Option String := i.location.bind (·.osmId)

/-- Whether override `o` matches scheduled instance `s` (same UTC calendar
day string and same optional location identifier). -/
def sameKey (o s : MassInstance) : Bool :=
  toYMD o.startDate == toYMD s.startDate && osmKey o == osmKey s

/-- The reconciliation key of an instance. -/
def instKey (i : MassInstance) : String × Option String :=
  (toYMD i.startDate, osmKey i)

/-- Pair each element with its position, starting at `n`.  The JS
`Set<MassInstance>` of applied overrides holds object references; each
pushed instance is a fresh object, so reference identity coincides with the
position in the `overrides` array, which this index records. -/
def withIdx {α : Type} : Nat → List α → List (Nat × α)
  | _, [] => []
  | n, a :: l => (n, a) :: withIdx (n + 1) l

/-- The per-scheduled-instance loop of the reconciliation: substitute the
first matching override (recording its index as applied) or keep the
scheduled instance. -/
def reconcileScheduled (ovs : List (Nat × MassInstance)) :
    List MassInstance → List MassInstance × List Nat
  | [] => ([], [])
  | s :: rest =>
    let t := reconcileScheduled ovs rest
    match ovs.find? (fun p => sameKey p.2 s) with
    | some p => (p.2 :: t.1, p.1 :: t.2)
    | none => (s :: t.1, t.2)

/-- Override reconciliation of `resolveEvents` (before the final sort):
partition into scheduled and override instances, substitute matching
overrides, then append unconsumed overrides. -/
def reconcile (instances : List MassInstance) : List MassInstance :=
  let scheduled := instances.filter fun i => i.status == .scheduled
  let overrides := instances.filter fun i =>
    i.status == .cancelled || i.status == .rescheduled
  let iovs := withIdx 0 overrides
  let r := reconcileScheduled iovs scheduled
  r.1 ++ (iovs.filter fun p => !(r.2.contains p.1)).map (·.2)

/-- Insert into a list sorted by `startDate`, after strictly earlier
elements and before equal ones. -/
def insertByStart (x : MassInstance) : List MassInstance → List MassInstance
  | [] => [x]
  | y :: ys => if y.startDate < x.startDate then y :: insertByStart x ys else x :: y :: ys

/-- The final `result.sort((a, b) => a.startDate.getTime() - b.startDate.getTime())`:
a stable ascending sort by `startDate` (ECMAScript `Array.prototype.sort`
is stable). -/
def sortByStart (l : List MassInstance) : List MassInstance :=
  l.foldr insertByStart []

/-- The source's `resolveEvents`: filter, expand, reconcile overrides,
sort. -/
def resolveEvents (env : JsEnv) (events : List ParsedEvent) (winFrom winTo : Int)
    (opts : ExpandOptions) (filter : EventFilter) : List MassInstance :=
  sortByStart (reconcile (emitInstances env events winFrom winTo opts filter))

/-- The `scheduled` partition of the collected instances. -/
def scheduledOf (l : List MassInstance) : List MassInstance :=
  l.filter fun i => i.status == .scheduled

/-- The `overrides` partition of the collected instances. -/
def overridesOf (l : List MassInstance) : List MassInstance :=
  l.filter fun i => i.status == .cancelled || i.status == .rescheduled

-- ─── Helper lemmas ────────────────────────────────────────────────────

theorem reconcile_eq (l : List MassInstance) :
    reconcile l =
      (reconcileScheduled (withIdx 0 (overridesOf l)) (scheduledOf l)).1 ++
        ((withIdx 0 (overridesOf l)).filter fun p =>
          !((reconcileScheduled (withIdx 0 (overridesOf l)) (scheduledOf l)).2.contains p.1)).map
          (·.2) := rfl

theorem insertByStart_perm (x : MassInstance) (l : List MassInstance) :
    (insertByStart x l).Perm (x :: l) := by
  induction l with
  | nil => exact List.Perm.refl _
  | cons y ys ih =>
    rw [insertByStart]
    by_cases h : y.startDate < x.startDate
    · simp only [h, if_pos]
      exact ((ih.cons y).trans (List.Perm.swap x y ys)).symm.symm
    · simp [h]

theorem sortByStart_perm (l : List MassInstance) : (sortByStart l).Perm l := by
  induction l with
  | nil => exact List.Perm.refl _
  | cons y ys ih =>
    have : sortByStart (y :: ys) = insertByStart y (sortByStart ys) := rfl
    rw [this]
    exact (insertByStart_perm y (sortByStart ys)).trans (ih.cons y)

theorem mem_sortByStart {x : MassInstance} {l : List MassInstance} :
    x ∈ sortByStart l ↔ x ∈ l := (sortByStart_perm l).mem_iff

theorem withIdx_map_snd {α : Type} (n : Nat) (l : List α) :
    (withIdx n l).map Prod.snd = l := by
  induction l generalizing n with
  | nil => rfl
  | cons a l ih => simp [withIdx, ih]

theorem mem_withIdx_ge {α : Type} {n : Nat} {l : List α} {p : Nat × α}
    (h : p ∈ withIdx n l) : n ≤ p.1 := by
  induction l generalizing n with
  | nil => cases h
  | cons a l ih =>
    rw [withIdx, List.mem_cons] at h
    rcases h with rfl | h'
    · exact Nat.le_refl _
    · exact Nat.le_of_succ_le (ih h')

theorem snd_mem_of_mem_withIdx {α : Type} {n : Nat} {l : List α} {p : Nat × α}
    (h : p ∈ withIdx n l) : p.2 ∈ l := by
  induction l generalizing n with
  | nil => cases h
  | cons a l ih =>
    rw [withIdx, List.mem_cons] at h
    rcases h with rfl | h'
    · exact List.mem_cons_self _ _
    · exact List.mem_cons_of_mem _ (ih h')

theorem mem_withIdx_of_mem {α : Type} {a : α} {l : List α} (h : a ∈ l) (n : Nat) :
    ∃ i, (i, a) ∈ withIdx n l := by
  induction l generalizing n with
  | nil => cases h
  | cons b l ih =>
    rw [List.mem_cons] at h
    rcases h with rfl | h'
    · exact ⟨n, List.mem_cons_self _ _⟩
    · obtain ⟨i, hi⟩ := ih h' (n + 1)
      exact ⟨i, List.mem_cons_of_mem _ hi⟩

theorem withIdx_fst_inj {α : Type} {n : Nat} {l : List α} {i : Nat} {a b : α}
    (ha : (i, a) ∈ withIdx n l) (hb : (i, b) ∈ withIdx n l) : a = b := by
  induction l generalizing n with
  | nil => cases ha
  | cons c l ih =>
    rw [withIdx, List.mem_cons] at ha hb
    rcases ha with ha | ha <;> rcases hb with hb | hb
    · rw [(Prod.mk.injEq _ _ _ _).mp ha |>.2, (Prod.mk.injEq _ _ _ _).mp hb |>.2]
    · cases (Prod.mk.injEq _ _ _ _).mp ha |>.1
      exact absurd (mem_withIdx_ge hb) (by omega)
    · cases (Prod.mk.injEq _ _ _ _).mp hb |>.1
      exact absurd (mem_withIdx_ge ha) (by omega)
    · exact ih ha hb

theorem withIdx_key_inj {α β : Type} {f : α → β} {n : Nat} {l : List α}
    (hnd : (l.map f).Nodup) {i j : Nat} {a b : α}
    (ha : (i, a) ∈ withIdx n l) (hb : (j, b) ∈ withIdx n l) (hk : f a = f b) :
    i = j ∧ a = b := by
  induction l generalizing n with
  | nil => cases ha
  | cons c l ih =>
    simp only [List.map_cons, List.nodup_cons] at hnd
    rw [withIdx, List.mem_cons] at ha hb
    rcases ha with ha | ha <;> rcases hb with hb | hb
    · obtain ⟨ha1, ha2⟩ := (Prod.mk.injEq _ _ _ _).mp ha
      obtain ⟨hb1, hb2⟩ := (Prod.mk.injEq _ _ _ _).mp hb
      exact ⟨ha1.trans hb1.symm, ha2.trans hb2.symm⟩
    · obtain ⟨_, ha2⟩ := (Prod.mk.injEq _ _ _ _).mp ha
      subst ha2
      exact absurd (hk ▸ List.mem_map_of_mem f (snd_mem_of_mem_withIdx hb)) hnd.1
    · obtain ⟨_, hb2⟩ := (Prod.mk.injEq _ _ _ _).mp hb
      subst hb2
      exact absurd (hk ▸ List.mem_map_of_mem f (snd_mem_of_mem_withIdx ha)) hnd.1
    · exact ih hnd.2 ha hb

theorem sameKey_iff {o s : MassInstance} : sameKey o s = true ↔ instKey o = instKey s := by
  unfold sameKey instKey
  rw [Bool.and_eq_true, beq_iff_eq, beq_iff_eq, Prod.mk.injEq]

/-- The substituted-result half of the reconciliation loop, as a `map`:
each scheduled instance becomes the first matching override, or itself. -/
theorem reconcileScheduled_fst_eq (ovs : List (Nat × MassInstance)) (l : List MassInstance) :
    (reconcileScheduled ovs l).1 = l.map fun s =>
      match ovs.find? (fun p => sameKey p.2 s) with
      | some p => p.2
      | none => s := by
  induction l with
  | nil => rfl
  | cons s rest ih =>
    rw [reconcileScheduled]
    cases hf : ovs.find? (fun p => sameKey p.2 s) <;> simp [hf, ih]

/-- The applied-override indices of the reconciliation loop, as a
`filterMap`. -/
theorem reconcileScheduled_snd_eq (ovs : List (Nat × MassInstance)) (l : List MassInstance) :
    (reconcileScheduled ovs l).2 = l.filterMap fun s =>
      (ovs.find? (fun p => sameKey p.2 s)).map Prod.fst := by
  induction l with
  | nil => rfl
  | cons s rest ih =>
    rw [reconcileScheduled]
    cases hf : ovs.find? (fun p => sameKey p.2 s) <;> simp [hf, ih]

theorem contains_iff {α : Type} [BEq α] [LawfulBEq α] {l : List α} {a : α} :
    l.contains a = true ↔ a ∈ l := List.elem_iff

theorem utcMidnight_add_div {c r : Int} (hc : dayMs ∣ c) (h0 : 0 ≤ r) (h1 : r < dayMs) :
    (c + r) / dayMs = c / dayMs := by
  simp only [dayMs] at *
  omega

theorem jsUTCDay_add_small {c r : Int} (hc : dayMs ∣ c) (h0 : 0 ≤ r) (h1 : r < dayMs) :
    jsUTCDay (c + r) = jsUTCDay c := by
  unfold jsUTCDay
  rw [utcMidnight_add_div hc h0 h1]

theorem toYMD_add_small {c r : Int} (hc : dayMs ∣ c) (h0 : 0 ≤ r) (h1 : r < dayMs) :
    toYMD (c + r) = toYMD c := by
  unfold toYMD
  rw [utcMidnight_add_div hc h0 h1]

theorem dvd_utcMidnight (t : Int) : dayMs ∣ utcMidnight t :=
  dvd_mul_left dayMs (t / dayMs)

theorem utcMidnight_of_dvd {t : Int} (h : dayMs ∣ t) : utcMidnight t = t := by
  unfold utcMidnight
  simp only [dayMs] at *
  omega

/-- With no timezone and a valid wall-clock time, the pushed instance keeps
the day number of the cursor. -/
theorem mkStartInstance_div (env : JsEnv) (sched : ParsedSchedule) (c : Int)
    (hTz : sched.timezone = none)
    (hTime : ∀ m, sched.startTime = some m → m < 1440) :
    mkStartInstance env sched c / dayMs = c / dayMs := by
  unfold mkStartInstance
  cases hst : sched.startTime with
  | none => rfl
  | some m =>
    have hm := hTime m hst
    unfold applyTimeToDate
    rw [hTz]
    dsimp only
    unfold utcMidnight dayMs
    omega

/-- With no timezone and a valid wall-clock time, applying `startTime`
leaves the instant on the cursor's UTC calendar day. -/
theorem toYMD_mkStartInstance (env : JsEnv) (sched : ParsedSchedule) (c : Int)
    (hTz : sched.timezone = none)
    (hTime : ∀ m, sched.startTime = some m → m < 1440) :
    toYMD (mkStartInstance env sched c) = toYMD c := by
  unfold toYMD
  rw [mkStartInstance_div env sched c hTz hTime]

/-- With no timezone and a valid wall-clock time, applying `startTime`
preserves the UTC weekday of the cursor. -/
theorem jsUTCDay_mkStartInstance (env : JsEnv) (sched : ParsedSchedule) (c : Int)
    (hTz : sched.timezone = none)
    (hTime : ∀ m, sched.startTime = some m → m < 1440) :
    jsUTCDay (mkStartInstance env sched c) = jsUTCDay c := by
  unfold jsUTCDay
  rw [mkStartInstance_div env sched c hTz hTime]

/-- Inversion for day-of-week expansion: every produced instant comes from
a visited cursor day that passed all three guards. -/
theorem mem_expandByDay {env : JsEnv} {sched : ParsedSchedule} {bE anchor : Int}
    {rweeks lim : Nat} {m0 : Int} {x : Int}
    (hx : x ∈ expandByDay env sched bE anchor rweeks lim m0) :
    ∃ k : Nat,
      jsUTCDay (m0 + (k : Int) * dayMs) ∈ sched.byDay ∧
      jsModEqZero (jsRoundDiv (m0 + (k : Int) * dayMs - anchor) weekMs) rweeks = true ∧
      toYMD (m0 + (k : Int) * dayMs) ∉ sched.exceptDates ∧
      x = mkStartInstance env sched (m0 + (k : Int) * dayMs) := by
  unfold expandByDay at hx
  have hx' := List.mem_of_mem_take hx
  rw [List.mem_filterMap] at hx'
  obtain ⟨k, -, hk⟩ := hx'
  simp only at hk
  simp at hk
  exact ⟨k, hk.1, hk.2.1, hk.2.2.1, hk.2.2.2.symm⟩

/-- Length bound for day-of-week expansion. -/
theorem length_expandByDay_le (env : JsEnv) (sched : ParsedSchedule) (bE anchor : Int)
    (rweeks lim : Nat) (m0 : Int) :
    (expandByDay env sched bE anchor rweeks lim m0).length ≤ lim := by
  unfold expandByDay
  simp [List.length_take]

/-- Inversion for fixed-interval expansion: every produced instant comes
from a cursor whose calendar day is not excepted. -/
theorem mem_expandFixed {env : JsEnv} {sched : ParsedSchedule} {bE : Int} {dur : Duration}
    {lim : Nat} {cursor : Int} {count : Nat} {x : Int}
    (hx : x ∈ expandFixed env sched bE dur lim cursor count) :
    ∃ c : Int,
      sched.exceptDates.contains (toYMD c) = false ∧
      x = mkStartInstance env sched c := by
  induction cursor, count using expandFixed.induct env sched bE dur lim with
  | case1 cursor count hg hn hex ih =>
    rw [expandFixed, dif_pos hg, dif_pos hn, if_pos hex] at hx
    exact ih hx
  | case2 cursor count hg hn hex ih =>
    rw [expandFixed, dif_pos hg, dif_pos hn, if_neg hex] at hx
    rcases List.mem_cons.mp hx with rfl | hx'
    · exact ⟨cursor, by simpa using hex, rfl⟩
    · exact ih hx'
  | case3 cursor count hg hn hex =>
    rw [expandFixed, dif_pos hg, dif_neg hn, if_pos hex] at hx
    cases hx
  | case4 cursor count hg hn hex =>
    rw [expandFixed, dif_pos hg, dif_neg hn, if_neg hex] at hx
    rw [List.mem_singleton] at hx
    exact ⟨cursor, by simpa using hex, hx⟩
  | case5 cursor count hg =>
    rw [expandFixed, dif_neg hg] at hx
    cases hx

/-- Length bound for fixed-interval expansion. -/
theorem length_expandFixed_le (env : JsEnv) (sched : ParsedSchedule) (bE : Int)
    (dur : Duration) (lim : Nat) (cursor : Int) (count : Nat) :
    (expandFixed env sched bE dur lim cursor count).length ≤ lim - count := by
  induction cursor, count using expandFixed.induct env sched bE dur lim with
  | case1 cursor count hg hn hex ih =>
    rw [expandFixed, dif_pos hg, dif_pos hn, if_pos hex]
    exact ih
  | case2 cursor count hg hn hex ih =>
    rw [expandFixed, dif_pos hg, dif_pos hn, if_neg hex]
    rw [List.length_cons]
    omega
  | case3 cursor count hg hn hex =>
    rw [expandFixed, dif_pos hg, dif_neg hn, if_pos hex]
    simp
  | case4 cursor count hg hn hex =>
    rw [expandFixed, dif_pos hg, dif_neg hn, if_neg hex]
    rw [List.length_singleton]
    omega
  | case5 cursor count hg =>
    rw [expandFixed, dif_neg hg]
    simp

theorem foldl_append_init {α β : Type} (g : α → List β) (l : List α) (a : List β) :
    l.foldl (fun acc e => acc ++ g e) a = a ++ l.foldl (fun acc e => acc ++ g e) [] := by
  induction l generalizing a with
  | nil => simp
  | cons e l ih =>
    rw [List.foldl_cons, List.foldl_cons, ih (a ++ g e), ih ([] ++ g e)]
    simp

theorem emitInstances_cons (env : JsEnv) (ev : ParsedEvent) (events : List ParsedEvent)
    (winFrom winTo : Int) (opts : ExpandOptions) (filter : EventFilter) :
    emitInstances env (ev :: events) winFrom winTo opts filter =
      eventInstances env ev winFrom winTo opts filter ++
        emitInstances env events winFrom winTo opts filter := by
  unfold emitInstances
  rw [List.foldl_cons, foldl_append_init]
  simp

/-- Every instance contributed by an event copies the event's status. -/
theorem eventInstances_status {env : JsEnv} {ev : ParsedEvent} {winFrom winTo : Int}
    {opts : ExpandOptions} {filter : EventFilter} {x : MassInstance}
    (hx : x ∈ eventInstances env ev winFrom winTo opts filter) :
    x.status = ev.status := by
  unfold eventInstances at hx
  split at hx
  · cases hx
  · split at hx
    · split at hx
      · cases hx
      · rw [List.mem_map] at hx
        obtain ⟨d, -, rfl⟩ := hx
        rfl
    · split at hx
      · split at hx
        · rw [List.mem_singleton] at hx
          subst hx
          rfl
        · cases hx
      · cases hx

/-- Members of the reconciled list come from one of the two partitions. -/
theorem mem_reconcile {l : List MassInstance} {x : MassInstance}
    (hx : x ∈ reconcile l) : x ∈ scheduledOf l ∨ x ∈ overridesOf l := by
  rw [reconcile_eq, List.mem_append] at hx
  rcases hx with hx | hx
  · rw [reconcileScheduled_fst_eq, List.mem_map] at hx
    obtain ⟨s, hs, hsub⟩ := hx
    cases hf : List.find? (fun p => sameKey p.2 s) (withIdx 0 (overridesOf l)) with
    | some p =>
      rw [hf] at hsub
      exact Or.inr (hsub ▸ snd_mem_of_mem_withIdx (List.mem_of_find?_eq_some hf))
    | none =>
      rw [hf] at hsub
      exact Or.inl (hsub ▸ hs)
  · rw [List.mem_map] at hx
    obtain ⟨p, hp, rfl⟩ := hx
    exact Or.inr (snd_mem_of_mem_withIdx (List.mem_filter.mp hp).1)

/-- Statuses of the two partitions. -/
theorem status_of_mem_scheduledOf {l : List MassInstance} {x : MassInstance}
    (hx : x ∈ scheduledOf l) : x.status = .scheduled := by
  have := (List.mem_filter.mp hx).2
  rwa [beq_iff_eq] at this

theorem status_of_mem_overridesOf {l : List MassInstance} {x : MassInstance}
    (hx : x ∈ overridesOf l) : x.status = .cancelled ∨ x.status = .rescheduled := by
  have := (List.mem_filter.mp hx).2
  rw [Bool.or_eq_true, beq_iff_eq, beq_iff_eq] at this
  exact this

/-- A scheduled instance is never equal (as a value) to an override. -/
theorem scheduled_ne_override {l : List MassInstance} {s o : MassInstance}
    (hs : s ∈ scheduledOf l) (ho : o ∈ overridesOf l) : s ≠ o := by
  intro h
  have h1 := status_of_mem_scheduledOf hs
  have h2 := status_of_mem_overridesOf ho
  rw [h] at h1
  rcases h2 with h2 | h2 <;> rw [h2] at h1 <;> cases h1

/-- Every override instance (consumed or not) appears in the reconciled
list. -/
theorem override_mem_reconcile {l : List MassInstance} {o : MassInstance}
    (ho : o ∈ overridesOf l) : o ∈ reconcile l := by
  obtain ⟨i, hio⟩ := mem_withIdx_of_mem ho 0
  rw [reconcile_eq, List.mem_append]
  by_cases hc : ((reconcileScheduled (withIdx 0 (overridesOf l)) (scheduledOf l)).2).contains i = true
  · left
    rw [contains_iff, reconcileScheduled_snd_eq, List.mem_filterMap] at hc
    obtain ⟨s, hs, hp⟩ := hc
    rw [Option.map_eq_some'] at hp
    obtain ⟨p, hf, hp1⟩ := hp
    have hpm := List.mem_of_find?_eq_some hf
    have : p.2 = o := by
      have : p = (p.1, p.2) := rfl
      rw [this, hp1] at hpm
      exact withIdx_fst_inj hpm hio
    rw [reconcileScheduled_fst_eq, List.mem_map]
    exact ⟨s, hs, by rw [hf]; exact this⟩
  · right
    rw [List.mem_map]
    refine ⟨(i, o), List.mem_filter.mpr ⟨hio, ?_⟩, rfl⟩
    simpa using hc

/-- A scheduled instance with a matching override is absent from the
reconciled list. -/
theorem scheduled_matched_not_mem_reconcile {l : List MassInstance} {s : MassInstance}
    (hs : s ∈ scheduledOf l) {o : MassInstance} (ho : o ∈ overridesOf l)
    (hk : sameKey o s = true) : s ∉ reconcile l := by
  intro hmem
  rw [reconcile_eq, List.mem_append] at hmem
  rcases hmem with hmem | hmem
  · rw [reconcileScheduled_fst_eq, List.mem_map] at hmem
    obtain ⟨s', hs', hsub⟩ := hmem
    cases hf : List.find? (fun p => sameKey p.2 s') (withIdx 0 (overridesOf l)) with
    | some p =>
      rw [hf] at hsub
      exact scheduled_ne_override hs
        (snd_mem_of_mem_withIdx (List.mem_of_find?_eq_some hf)) hsub.symm
    | none =>
      rw [hf] at hsub
      subst hsub
      obtain ⟨i, hio⟩ := mem_withIdx_of_mem ho 0
      have := List.find?_eq_none.mp hf _ hio
      exact this hk
  · rw [List.mem_map] at hmem
    obtain ⟨p, hp, hps⟩ := hmem
    exact scheduled_ne_override hs
      (snd_mem_of_mem_withIdx (List.mem_filter.mp hp).1) hps.symm

/-- A scheduled instance with no matching override is kept in the
reconciled list. -/
theorem scheduled_unmatched_mem_reconcile {l : List MassInstance} {s : MassInstance}
    (hs : s ∈ scheduledOf l)
    (hno : ∀ o ∈ overridesOf l, ¬ sameKey o s = true) : s ∈ reconcile l := by
  rw [reconcile_eq, List.mem_append]
  left
  rw [reconcileScheduled_fst_eq, List.mem_map]
  refine ⟨s, hs, ?_⟩
  have hf : List.find? (fun p => sameKey p.2 s) (withIdx 0 (overridesOf l)) = none :=
    List.find?_eq_none.mpr fun p hp => hno p.2 (snd_mem_of_mem_withIdx hp)
  rw [hf]

/-- Substituting overrides preserves the key of each scheduled instance
(the override matched on exactly that key). -/
theorem reconcileScheduled_fst_keys (ovs : List (Nat × MassInstance)) (l : List MassInstance) :
    ((reconcileScheduled ovs l).1).map instKey = l.map instKey := by
  rw [reconcileScheduled_fst_eq, List.map_map]
  apply List.map_congr_left
  intro s hs
  cases hf : List.find? (fun p => sameKey p.2 s) ovs with
  | some p =>
    have := List.find?_some hf
    simp only [Function.comp_apply, hf]
    exact sameKey_iff.mp this
  | none => simp only [Function.comp_apply, hf]

/-- If the emitted scheduled instances have pairwise-distinct keys and the
emitted overrides have pairwise-distinct keys, the reconciled list has
pairwise-distinct keys. -/
theorem reconcile_keys_nodup {l : List MassInstance}
    (h1 : ((scheduledOf l).map instKey).Nodup)
    (h2 : ((overridesOf l).map instKey).Nodup) :
    ((reconcile l).map instKey).Nodup := by
  rw [reconcile_eq, List.map_append, List.nodup_append]
  set iovs := withIdx 0 (overridesOf l) with hiovs
  set applied := (reconcileScheduled iovs (scheduledOf l)).2 with happ
  refine ⟨?_, ?_, ?_⟩
  · rw [reconcileScheduled_fst_keys]
    exact h1
  · have hsub : ((iovs.filter fun p => !(applied.contains p.1)).map (·.2)).Sublist
        (overridesOf l) := by
      have hs1 := (@List.filter_sublist _ (fun p => !(applied.contains p.1)) iovs).map
        (fun p : Nat × MassInstance => p.2)
      rwa [show (iovs.map fun p : Nat × MassInstance => p.2) = overridesOf l from
        withIdx_map_snd 0 (overridesOf l)] at hs1
    exact (hsub.map instKey).nodup h2
  · intro k hkA hkB
    rw [reconcileScheduled_fst_keys, List.mem_map] at hkA
    obtain ⟨s, hs, hks⟩ := hkA
    rw [List.map_map, List.mem_map] at hkB
    obtain ⟨p, hpf, hkp⟩ := hkB
    have hp : p ∈ iovs := (List.mem_filter.mp hpf).1
    have hpq : (!(applied.contains p.1)) = true := (List.mem_filter.mp hpf).2
    have hkey : sameKey p.2 s = true := sameKey_iff.mpr (by
      rw [Function.comp_apply] at hkp
      rw [hkp, hks])
    cases hf : List.find? (fun q => sameKey q.2 s) iovs with
    | none => exact (List.find?_eq_none.mp hf p hp) hkey
    | some q =>
      have hq : q ∈ iovs := List.mem_of_find?_eq_some hf
      have hqk : sameKey q.2 s = true := by simpa using List.find?_some hf
      have hkeys : instKey p.2 = instKey q.2 := by
        rw [sameKey_iff] at hkey hqk
        rw [hkey, hqk]
      have heq := withIdx_key_inj h2 hp hq hkeys
      have hqa : q.1 ∈ applied := by
        rw [happ, reconcileScheduled_snd_eq, List.mem_filterMap]
        exact ⟨s, hs, by rw [hf]; rfl⟩
      rw [← heq.1] at hqa
      rw [Bool.not_eq_true', ← Bool.not_eq_true] at hpq
      exact hpq (contains_iff.mpr hqa)

-- ─── Concrete inputs used by witnesses and counterexamples ────────────

/-- Epoch milliseconds of a civil date at UTC midnight. -/
def epochDay (y m d : Int) : Int := daysFromCivil y m d * dayMs

/-- An environment whose timezone database knows one zone, fixed at
UTC+01:00 (Europe/Madrid in winter, e.g. throughout March 1-29, 2025). -/
def envPlus1 : JsEnv :=
  { tzLocal := fun z t => if z = "Europe/Madrid" then some (t + 3600000) else none
    clock := 0 }

/-- An event with no language tags (a parish that has not adopted
`inLanguage`). -/
def eventNoLang : ParsedEvent :=
  { name := "Mass", status := .scheduled, startDate := some (epochDay 2025 3 16) }

/-- A language filter that explicitly opts in to language-unset events. -/
def langFilterUnknownTrue : EventFilter :=
  { language := .one "es", includeLanguageUnknown := some true }

-- ─── Claim C3 ─────────────────────────────────────────────────────────

/-- C3: the claim (and the `includeLanguageUnknown` documentation in
`types.ts`, and the unit test at `parse.test.ts` line 282) says a
definition with no language tags passes an active language filter exactly
when `includeLanguageUnknown` is true.  The code never consults the flag:
`matchesFilter` rejects the event even with the flag set (first conjunct),
and its result is invariant under any value of the flag (second
conjunct). -/
theorem C3_filter_ignores_includeLanguageUnknown :
    matchesFilter eventNoLang langFilterUnknownTrue = false ∧
    ∀ (ev : ParsedEvent) (f : EventFilter) (b : Option Bool),
      matchesFilter ev { f with includeLanguageUnknown := b } = matchesFilter ev f := by
  refine ⟨rfl, ?_⟩
  intro ev f b
  cases f
  rfl

-- ─── Claim C7 ─────────────────────────────────────────────────────────

/-- Written from the spec's words (§4.1): a string is a well-formed
date-only duration when it matches the whole pattern `P[nY][nM][nW][nD]`
with nothing left over.  Used only to state that `"PT12H"` is not
well-formed. -/
def specWellFormedDuration (s : String) : Bool :=
  match s.data with
  | 'P' :: r0 =>
    let p1 := durComponent 'Y' r0
    let p2 := durComponent 'M' p1.2
    let p3 := durComponent 'W' p2.2
    let p4 := durComponent 'D' p3.2
    p4.2.isEmpty
  | _ => false

/-- C7 counterexample: `"PT12H"` is not a well-formed date-only duration,
yet the parser does not return the one-week default; the regex matches the
bare `"P"` prefix with every capture group empty, so the result is an empty
duration with no components at all. -/
theorem C7_counterexample :
    specWellFormedDuration "PT12H" = false ∧
    parseDuration "PT12H" ≠ { weeks := some 1 } ∧
    parseDuration "PT12H" = { } := by
  refine ⟨rfl, ?_, rfl⟩
  decide

/-- C7 amended: the parser is total (never throws), and the one-week
default is produced exactly for inputs that do not begin with `'P'` (where
the anchored regex fails to match); an input beginning with `'P'` yields
whatever leading components parse, possibly none. -/
theorem C7_amended (s : String) (h : s.data.head? ≠ some 'P') :
    parseDuration s = { weeks := some 1 } := by
  unfold parseDuration
  split
  · rename_i heq
    exact absurd (by rw [heq]; rfl) h
  · rfl

/-- Witness for C7: a concrete input not beginning with `'P'`. -/
theorem C7_amended_witness :
    ("2 weeks" : String).data.head? ≠ some 'P' ∧
    parseDuration "2 weeks" = { weeks := some 1 } :=
  ⟨by decide, C7_amended "2 weeks" (by decide)⟩

-- ─── Claim C8 ─────────────────────────────────────────────────────────

/-- C8: the occurrence generator is a total function (it terminates; the
fixed-interval walk advances the cursor by at least one calendar day per
step, which the well-founded recursion of `expandFixed` records) and never
returns more than `opts.limit` instants, with 500 substituted when no limit
is supplied. -/
theorem C8_expansion_capped (env : JsEnv) (sched : ParsedSchedule) (opts : ExpandOptions) :
    (expandSchedule env sched opts).length ≤ opts.limit.getD 500 := by
  unfold expandSchedule
  dsimp only
  repeat' split
  all_goals first
    | simp
    | exact length_expandByDay_le env sched _ _ _ _ _
    | (have hfix := length_expandFixed_le env sched (boundsEndOf env sched opts)
        (parseDuration sched.repeatFrequency) (opts.limit.getD 500)
        (boundsStartOf env sched opts) 0
       omega)

-- ─── Claim C9 ─────────────────────────────────────────────────────────

/-- C9: the resolver and the occurrence generator are pure functions of
their explicit inputs (the ambient timezone database and clock are part of
the input environment; the embedding threads no other state, and the source
mutates only locally created arrays and `Date` copies): invocations on
equal inputs give equal, order-identical outputs. -/
theorem C9_deterministic (env : JsEnv) (evs1 evs2 : List ParsedEvent)
    (from1 from2 to1 to2 : Int) (o1 o2 : ExpandOptions) (fi1 fi2 : EventFilter)
    (s1 s2 : ParsedSchedule) (p1 p2 : ExpandOptions)
    (he : evs1 = evs2) (hf : from1 = from2) (ht : to1 = to2) (ho : o1 = o2)
    (hfi : fi1 = fi2) (hs : s1 = s2) (hp : p1 = p2) :
    resolveEvents env evs1 from1 to1 o1 fi1 = resolveEvents env evs2 from2 to2 o2 fi2 ∧
    expandSchedule env s1 p1 = expandSchedule env s2 p2 := by
  subst he hf ht ho hfi hs hp
  exact ⟨rfl, rfl⟩

/-- Witness for C9 at concrete inputs. -/
theorem C9_deterministic_witness :
    [eventNoLang] = [eventNoLang] ∧
    (resolveEvents envPlus1 [eventNoLang] (epochDay 2025 3 16) (epochDay 2025 3 17) { } { } =
      resolveEvents envPlus1 [eventNoLang] (epochDay 2025 3 16) (epochDay 2025 3 17) { } { } ∧
    expandSchedule envPlus1 { } { } = expandSchedule envPlus1 { } { }) :=
  ⟨rfl, C9_deterministic envPlus1 [eventNoLang] [eventNoLang]
    (epochDay 2025 3 16) (epochDay 2025 3 16) (epochDay 2025 3 17) (epochDay 2025 3 17)
    { } { } { } { } { } { } { } { } rfl rfl rfl rfl rfl rfl rfl⟩

-- ─── Claim C10 ────────────────────────────────────────────────────────

theorem reconcile_congr {l1 l2 : List MassInstance}
    (hs : scheduledOf l1 = scheduledOf l2) (ho : overridesOf l1 = overridesOf l2) :
    reconcile l1 = reconcile l2 := by
  rw [reconcile_eq, reconcile_eq, hs, ho]

theorem scheduledOf_append (l1 l2 : List MassInstance) :
    scheduledOf (l1 ++ l2) = scheduledOf l1 ++ scheduledOf l2 :=
  List.filter_append _ _

theorem overridesOf_append (l1 l2 : List MassInstance) :
    overridesOf (l1 ++ l2) = overridesOf l1 ++ overridesOf l2 :=
  List.filter_append _ _

/-- C10: every instance in the resolver's final output has status
scheduled, cancelled or rescheduled (the reconciliation keeps only the two
partitions), and an event whose status is postponed or movedOnline
contributes nothing: dropping it from the input leaves the output
unchanged, even when it passes the filter and its occurrences fall within
the window. -/
theorem C10_output_statuses (env : JsEnv) (events : List ParsedEvent)
    (winFrom winTo : Int) (opts : ExpandOptions) (filter : EventFilter) :
    (∀ i ∈ resolveEvents env events winFrom winTo opts filter,
      i.status = .scheduled ∨ i.status = .cancelled ∨ i.status = .rescheduled) ∧
    (∀ ev : ParsedEvent, ev.status = .postponed ∨ ev.status = .movedOnline →
      resolveEvents env (ev :: events) winFrom winTo opts filter =
        resolveEvents env events winFrom winTo opts filter) := by
  constructor
  · intro i hi
    unfold resolveEvents at hi
    rw [mem_sortByStart] at hi
    rcases mem_reconcile hi with h | h
    · exact Or.inl (status_of_mem_scheduledOf h)
    · rcases status_of_mem_overridesOf h with h | h
      · exact Or.inr (Or.inl h)
      · exact Or.inr (Or.inr h)
  · intro ev hev
    unfold resolveEvents
    rw [emitInstances_cons]
    have hstat : ∀ x ∈ eventInstances env ev winFrom winTo opts filter,
        x.status = ev.status := fun x hx => eventInstances_status hx
    have hs : scheduledOf (eventInstances env ev winFrom winTo opts filter) = [] := by
      rw [scheduledOf, List.filter_eq_nil_iff]
      intro a ha
      rw [hstat a ha]
      rcases hev with h | h <;> rw [h] <;> decide
    have ho : overridesOf (eventInstances env ev winFrom winTo opts filter) = [] := by
      rw [overridesOf, List.filter_eq_nil_iff]
      intro a ha
      rw [hstat a ha]
      rcases hev with h | h <;> rw [h] <;> decide
    congr 1
    apply reconcile_congr
    · rw [scheduledOf_append, hs, List.nil_append]
    · rw [overridesOf_append, ho, List.nil_append]

/-- Witness for C10 at a concrete input. -/
theorem C10_output_statuses_witness :
    oneOffInstance eventNoLang (epochDay 2025 3 16) ∈
      resolveEvents envPlus1 [eventNoLang] (epochDay 2025 3 16) (epochDay 2025 3 17) { } { } ∧
    ((oneOffInstance eventNoLang (epochDay 2025 3 16)).status = .scheduled ∨
      (oneOffInstance eventNoLang (epochDay 2025 3 16)).status = .cancelled ∨
      (oneOffInstance eventNoLang (epochDay 2025 3 16)).status = .rescheduled) :=
  ⟨by decide,
    (C10_output_statuses envPlus1 [eventNoLang] (epochDay 2025 3 16) (epochDay 2025 3 17)
      { } { }).1 _ (by decide)⟩

-- ─── Claim C1 ─────────────────────────────────────────────────────────

/-- C1: override reconciliation.  For the instances emitted by the
resolver: a scheduled instance with some override (cancelled or
rescheduled) on the same UTC calendar day and at the same location
identifier is absent from the final result; a scheduled instance with no
matching override is kept; and every override instance — consumed in place
or appended as a standalone — appears in the final result. -/
theorem C1_override_substitution (env : JsEnv) (events : List ParsedEvent)
    (winFrom winTo : Int) (opts : ExpandOptions) (filter : EventFilter) :
    (∀ s ∈ scheduledOf (emitInstances env events winFrom winTo opts filter),
      ((∃ o ∈ overridesOf (emitInstances env events winFrom winTo opts filter),
          sameKey o s = true) →
        s ∉ resolveEvents env events winFrom winTo opts filter) ∧
      ((∀ o ∈ overridesOf (emitInstances env events winFrom winTo opts filter),
          ¬ sameKey o s = true) →
        s ∈ resolveEvents env events winFrom winTo opts filter)) ∧
    (∀ o ∈ overridesOf (emitInstances env events winFrom winTo opts filter),
      o ∈ resolveEvents env events winFrom winTo opts filter) := by
  constructor
  · intro s hs
    constructor
    · rintro ⟨o, ho, hk⟩ hmem
      unfold resolveEvents at hmem
      rw [mem_sortByStart] at hmem
      exact scheduled_matched_not_mem_reconcile hs ho hk hmem
    · intro hno
      unfold resolveEvents
      rw [mem_sortByStart]
      exact scheduled_unmatched_mem_reconcile hs hno
  · intro o ho
    unfold resolveEvents
    rw [mem_sortByStart]
    exact override_mem_reconcile ho

/-- A concrete scheduled one-off event (2025-03-16T01:00Z, no location). -/
def eventSched316 : ParsedEvent :=
  { name := "Sunday Mass", status := .scheduled,
    startDate := some (epochDay 2025 3 16 + 3600000) }

/-- A cancellation of the same day and location. -/
def eventCanc316 : ParsedEvent :=
  { name := "Sunday Mass", status := .cancelled,
    startDate := some (epochDay 2025 3 16 + 3600000) }

/-- Witness for C1 at a concrete input: the override replaces the
scheduled instance, which is absent from the result. -/
theorem C1_override_substitution_witness :
    oneOffInstance eventSched316 (epochDay 2025 3 16 + 3600000) ∈
      scheduledOf (emitInstances envPlus1 [eventSched316, eventCanc316]
        (epochDay 2025 3 16) (epochDay 2025 3 17) { } { }) ∧
    (∃ o ∈ overridesOf (emitInstances envPlus1 [eventSched316, eventCanc316]
        (epochDay 2025 3 16) (epochDay 2025 3 17) { } { }),
      sameKey o (oneOffInstance eventSched316 (epochDay 2025 3 16 + 3600000)) = true) ∧
    oneOffInstance eventSched316 (epochDay 2025 3 16 + 3600000) ∉
      resolveEvents envPlus1 [eventSched316, eventCanc316]
        (epochDay 2025 3 16) (epochDay 2025 3 17) { } { } :=
  ⟨by decide, by decide,
    ((C1_override_substitution envPlus1 [eventSched316, eventCanc316]
      (epochDay 2025 3 16) (epochDay 2025 3 17) { } { }).1 _ (by decide)).1 (by decide)⟩

-- ─── Claim C2 ─────────────────────────────────────────────────────────

/-- Two distinct scheduled one-off events on the same calendar day with no
location identifier. -/
def eventDupA : ParsedEvent :=
  { name := "Mass A", status := .scheduled, startDate := some (epochDay 2025 3 16 + 3600000) }

/-- See `eventDupA`. -/
def eventDupB : ParsedEvent :=
  { name := "Mass B", status := .scheduled, startDate := some (epochDay 2025 3 16 + 7200000) }

/-- C2 counterexample: the reconciliation never merges two scheduled
instances, so two distinct scheduled events on the same UTC day with the
same (absent) location identifier leave two instances with the same
(calendar day, location identifier) key in the final result. -/
theorem C2_counterexample :
    ¬ ((resolveEvents envPlus1 [eventDupA, eventDupB]
        (epochDay 2025 3 16) (epochDay 2025 3 17) { } { }).map instKey).Nodup := by
  decide

/-- C2 amended: the uniqueness invariant holds under the additional
hypothesis that the emitted scheduled instances have pairwise-distinct
(UTC calendar day, location identifier) keys and likewise the emitted
overrides: then the final result has pairwise-distinct keys (two instances
both lacking a location identifier count as sharing a key). -/
theorem C2_amended (env : JsEnv) (events : List ParsedEvent)
    (winFrom winTo : Int) (opts : ExpandOptions) (filter : EventFilter)
    (h1 : ((scheduledOf (emitInstances env events winFrom winTo opts filter)).map
      instKey).Nodup)
    (h2 : ((overridesOf (emitInstances env events winFrom winTo opts filter)).map
      instKey).Nodup) :
    ((resolveEvents env events winFrom winTo opts filter).map instKey).Nodup := by
  unfold resolveEvents
  have hp := (sortByStart_perm
    (reconcile (emitInstances env events winFrom winTo opts filter))).map instKey
  rw [hp.nodup_iff]
  exact reconcile_keys_nodup h1 h2

/-- Witness for C2 at a concrete input with distinct keys. -/
theorem C2_amended_witness :
    ((scheduledOf (emitInstances envPlus1 [eventSched316, eventCanc316]
      (epochDay 2025 3 16) (epochDay 2025 3 17) { } { })).map instKey).Nodup ∧
    ((overridesOf (emitInstances envPlus1 [eventSched316, eventCanc316]
      (epochDay 2025 3 16) (epochDay 2025 3 17) { } { })).map instKey).Nodup ∧
    ((resolveEvents envPlus1 [eventSched316, eventCanc316]
      (epochDay 2025 3 16) (epochDay 2025 3 17) { } { }).map instKey).Nodup :=
  ⟨by decide, by decide,
    C2_amended envPlus1 [eventSched316, eventCanc316]
      (epochDay 2025 3 16) (epochDay 2025 3 17) { } { } (by decide) (by decide)⟩

-- ─── Claim C4 ─────────────────────────────────────────────────────────

/-- A weekly Sunday schedule at wall-clock 00:30 in a UTC+1 zone. -/
def schedMadrid0030 : ParsedSchedule :=
  { byDay := [0], startTime := some 30, repeatFrequency := "P1W",
    startDate := some (epochDay 2025 1 1), timezone := some "Europe/Madrid" }

/-- The window 2025-03-10 .. 2025-03-17 (UTC midnights). -/
def optsMarWeek : ExpandOptions :=
  { expandFrom := some (epochDay 2025 3 10), expandTo := some (epochDay 2025 3 17) }

/-- C4 counterexample: with `daysOfWeek = {Sunday}` and wall-clock 00:30 in
a UTC+1 zone, the instant generated for Sunday 2025-03-16 is
2025-03-15T23:30Z, a Saturday: the claim fails when a startTime and a
non-UTC timezone are set. -/
theorem C4_counterexample :
    ¬ (∀ t ∈ expandSchedule envPlus1 schedMadrid0030 optsMarWeek,
        jsUTCDay t ∈ schedMadrid0030.byDay) := by
  decide

/-- C4 amended: for a recurrence definition with non-empty `daysOfWeek`, no
timezone (UTC interpretation) and a valid `"HH:mm"` start time, every
generated instant's UTC weekday is a member of `daysOfWeek` — in
particular, with `daysOfWeek = {d}` every instant's weekday equals `d`. -/
theorem C4_amended (env : JsEnv) (sched : ParsedSchedule) (opts : ExpandOptions)
    (hDays : sched.byDay.length > 0) (hTz : sched.timezone = none)
    (hTime : ∀ m, sched.startTime = some m → m < 1440) :
    ∀ t ∈ expandSchedule env sched opts, jsUTCDay t ∈ sched.byDay := by
  intro t ht
  unfold expandSchedule at ht
  dsimp only at ht
  split at ht
  all_goals first
    | exact absurd ht (List.not_mem_nil t)
    | exact absurd hDays (by assumption)
    | (obtain ⟨k, hmem, -, -, rfl⟩ := mem_expandByDay ht
       rwa [jsUTCDay_mkStartInstance env sched _ hTz hTime])

/-- A weekly Sunday schedule at 11:00 UTC with no timezone. -/
def schedSun1100 : ParsedSchedule :=
  { byDay := [0], startTime := some 660, repeatFrequency := "P1W",
    startDate := some (epochDay 2025 1 1) }

/-- Witness for C4 at a concrete timezone-free schedule. -/
theorem C4_amended_witness :
    schedSun1100.byDay.length > 0 ∧ schedSun1100.timezone = none ∧
    ∀ t ∈ expandSchedule envPlus1 schedSun1100 optsMarWeek,
      jsUTCDay t ∈ schedSun1100.byDay :=
  ⟨by decide, rfl,
    C4_amended envPlus1 schedSun1100 optsMarWeek (by decide) rfl
      (by intro m hm; rw [show schedSun1100.startTime = some 660 from rfl] at hm;
          rw [Option.some.injEq] at hm; omega)⟩

-- ─── Claim C5 ─────────────────────────────────────────────────────────

/-- `schedMadrid0030` with 2025-03-15 excepted. -/
def schedMadridExc : ParsedSchedule :=
  { byDay := [0], startTime := some 30, repeatFrequency := "P1W",
    startDate := some (epochDay 2025 1 1), timezone := some "Europe/Madrid",
    exceptDates := ["2025-03-15"] }

/-- C5 counterexample: the exception check runs on the cursor day before
the timezone correction; the Sunday 2025-03-16 cursor is not excepted, but
the emitted instant 2025-03-15T23:30Z falls on the excepted calendar date
2025-03-15. -/
theorem C5_counterexample :
    ∃ t ∈ expandSchedule envPlus1 schedMadridExc optsMarWeek,
      toYMD t ∈ schedMadridExc.exceptDates := by
  decide

/-- C5 amended: for a definition with no timezone and a valid `"HH:mm"`
start time, no generated instant falls on a calendar date listed in
`exceptDates`, in both day-of-week mode and fixed-interval mode. -/
theorem C5_amended (env : JsEnv) (sched : ParsedSchedule) (opts : ExpandOptions)
    (hTz : sched.timezone = none)
    (hTime : ∀ m, sched.startTime = some m → m < 1440) :
    ∀ t ∈ expandSchedule env sched opts, toYMD t ∉ sched.exceptDates := by
  intro t ht
  unfold expandSchedule at ht
  dsimp only at ht
  split at ht
  all_goals try split at ht
  all_goals try split at ht
  all_goals first
    | exact absurd ht (List.not_mem_nil t)
    | (obtain ⟨k, -, -, hnot, rfl⟩ := mem_expandByDay ht
       rwa [toYMD_mkStartInstance env sched _ hTz hTime])
    | (obtain ⟨c, hcontains, rfl⟩ := mem_expandFixed ht
       rw [toYMD_mkStartInstance env sched _ hTz hTime]
       intro hm
       have hc := contains_iff.mpr hm
       rw [hcontains] at hc
       cases hc)

/-- `schedSun1100` with the only Sunday of the window excepted. -/
def schedSunExc : ParsedSchedule :=
  { byDay := [0], startTime := some 660, repeatFrequency := "P1W",
    startDate := some (epochDay 2025 1 1), exceptDates := ["2025-03-16"] }

/-- Witness for C5 at a concrete timezone-free schedule. -/
theorem C5_amended_witness :
    schedSunExc.timezone = none ∧
    ∀ t ∈ expandSchedule envPlus1 schedSunExc optsMarWeek,
      toYMD t ∉ schedSunExc.exceptDates :=
  ⟨rfl,
    C5_amended envPlus1 schedSunExc optsMarWeek rfl
      (by intro m hm; rw [show schedSunExc.startTime = some 660 from rfl] at hm;
          rw [Option.some.injEq] at hm; omega)⟩

-- ─── Claim C6 ─────────────────────────────────────────────────────────

/-- A fortnightly Sunday schedule whose `validFrom` anchor is the Sunday
2025-03-02. -/
def schedP2W : ParsedSchedule :=
  { byDay := [0], repeatFrequency := "P2W", startDate := some (epochDay 2025 3 2) }

/-- The window 2025-03-02 .. 2025-03-31. -/
def optsP2W : ExpandOptions :=
  { expandFrom := some (epochDay 2025 3 2), expandTo := some (epochDay 2025 3 31) }

/-- C6: in day-of-week mode every emitted instant comes from a candidate
day whose weekday is in `daysOfWeek`, whose date is not excepted, and whose
offset in whole weeks (`Math.round` of the day difference over one week)
from the anchor (`validFrom` when set, else the effective window start,
truncated to UTC midnight) satisfies `offsetWeeks mod repeatWeeks == 0`
with `repeatWeeks` the week count of `repeatPeriod` (default 1); and
concretely, `"P2W"` with `daysOfWeek = {Sunday}` anchored on Sunday
2025-03-02 yields exactly the alternating Sundays Mar 2, Mar 16 and Mar 30
over a five-Sunday window. -/
theorem C6_multiweek_cycle :
    (∀ (env : JsEnv) (sched : ParsedSchedule) (opts : ExpandOptions),
      sched.byDay.length > 0 →
      ∀ t ∈ expandSchedule env sched opts,
        ∃ c : Int, t = mkStartInstance env sched c ∧
          jsUTCDay c ∈ sched.byDay ∧
          jsModEqZero (jsRoundDiv (c - anchorOf env sched opts) weekMs)
            ((parseDuration sched.repeatFrequency).weeks.getD 1) = true ∧
          toYMD c ∉ sched.exceptDates) ∧
    expandSchedule envPlus1 schedP2W optsP2W =
      [epochDay 2025 3 2, epochDay 2025 3 16, epochDay 2025 3 30] := by
  constructor
  · intro env sched opts hDays t ht
    unfold expandSchedule at ht
    dsimp only at ht
    split at ht
    all_goals first
      | exact absurd ht (List.not_mem_nil t)
      | exact absurd hDays (by assumption)
      | (obtain ⟨k, hmem, hmod, hnot, rfl⟩ := mem_expandByDay ht
         exact ⟨_, rfl, hmem, hmod, hnot⟩)
  · decide

/-- Witness for C6: the universal part applied at the concrete fortnightly
schedule and its first emitted instant. -/
theorem C6_multiweek_cycle_witness :
    schedP2W.byDay.length > 0 ∧
    epochDay 2025 3 2 ∈ expandSchedule envPlus1 schedP2W optsP2W ∧
    ∃ c : Int, epochDay 2025 3 2 = mkStartInstance envPlus1 schedP2W c ∧
      jsUTCDay c ∈ schedP2W.byDay ∧
      jsModEqZero (jsRoundDiv (c - anchorOf envPlus1 schedP2W optsP2W) weekMs)
        ((parseDuration schedP2W.repeatFrequency).weeks.getD 1) = true ∧
      toYMD c ∉ schedP2W.exceptDates :=
  ⟨by decide, by decide,
    C6_multiweek_cycle.1 envPlus1 schedP2W optsP2W (by decide) _ (by decide)⟩

end Hmodb
